import Mathlib

/-!
Verification of the spaced-repetition scheduler of the studyflash repository.

The scheduler lives in two near-duplicate copies: `sm2_update`,
`get_learning_steps`, `update_schedule` and `fetch_due_cards` in
`src/study.py` (the CLI), and the nested `sm2` plus the surrounding
`rate` handler in `src/webapp.py` (the web layer). Those functions are
embedded below as pure Lean functions.

Modelling conventions:
* Python `float` arithmetic on the ease factor is modelled as exact
  rational arithmetic (`ℚ`); all constants involved (2.5, 1.3, 0.1,
  0.08, 0.02) and the counterexample inputs are exactly representable,
  so no claim below depends on binary rounding error.
* Time is modelled as an integer count of minutes; `timedelta(days=d)`
  becomes `d * 1440` minutes.
* Python's built-in `round` rounds ties to the nearest even integer;
  `roundHalfEven` reproduces that.
* Python list subscripts admit one negative wrap-around; `pyGet`
  reproduces that and returns `none` exactly when Python raises
  `IndexError`.
* `json.loads` of the `learning_steps` configuration string is modelled
  by its result: `some steps` when the stored text parses as a list of
  integers, `none` when parsing raises.
* The SQLite row of the `cards` table is the structure `Card`; the SQL
  `WHERE`/`ORDER BY`/`LIMIT` phase of `fetch_due_cards` is embedded as
  filter, sort by `(due, id)` and truncation over a list of rows, with
  the deck/tag `WHERE` clauses abstracted as a Boolean row predicate.
-/

namespace Studyflash

/-- A row of the `cards` table (the scheduling-relevant columns of the
schema in `src/study.py`). -/
structure Card where
  id : ℤ
  ease : ℚ
  interval : ℤ
  reps : ℤ
  lapses : ℤ
  learning_step_index : ℤ
  due : ℤ
  suspended : Bool
deriving DecidableEq, Repr

/-- Python list subscript `l[i]`: a nonnegative index is used directly, a
negative index wraps once from the end, anything else raises
(`none`). -/
def pyGet (l : List ℤ) (i : ℤ) : Option ℤ :=
  if 0 ≤ i then l.get? i.toNat
  else if 0 ≤ i + l.length then l.get? (i + l.length).toNat
  else none

/-- Python 3 `round`: nearest integer, ties to the nearest even
integer. -/
def roundHalfEven (x : ℚ) : ℤ :=
  if x - ⌊x⌋ < 1/2 then ⌊x⌋
  else if 1/2 < x - ⌊x⌋ then ⌊x⌋ + 1
  else if ⌊x⌋ % 2 = 0 then ⌊x⌋ else ⌊x⌋ + 1

/-- Modelled from the spec: rounding "in whole days, ties
round-half-up", used only to compare the spec's rounding rule with the
code's. -/
def roundHalfUpSpec (x : ℚ) : ℤ := ⌊x + 1/2⌋

/-- Function `sm2_update` from `src/study.py` lines 120-135. Returns
`(ease', interval', reps')`. -/
def sm2_update (ease : ℚ) (interval reps quality : ℤ) : ℚ × ℤ × ℤ :=
  let q := max 0 (min 5 quality)
  if q < 3 then
    (ease, 1, 0)
  else
    let interval' := if reps = 0 then 1
      else if reps = 1 then 6
      else roundHalfEven ((interval : ℚ) * ease)
    let reps' := reps + 1
    let ease' := ease + (1/10 - ((5 - q : ℤ) : ℚ) * (8/100 + ((5 - q : ℤ) : ℚ) * (2/100)))
    let ease'' := if ease' < 13/10 then 13/10 else ease'
    (ease'', interval', reps')

/-- The nested `sm2` function inside the `rate` handler of
`src/webapp.py` lines 544-555. Returns `(ease', interval', reps')`. -/
def webapp_sm2 (ease : ℚ) (interval reps quality : ℤ) : ℚ × ℤ × ℤ :=
  let q := max 0 (min 5 quality)
  if q < 3 then
    (ease, 1, 0)
  else
    let interval' := if reps = 0 then 1
      else if reps = 1 then 6
      else roundHalfEven ((interval : ℚ) * ease)
    let reps' := reps + 1
    let ease' := ease + (1/10 - ((5 - q : ℤ) : ℚ) * (8/100 + ((5 - q : ℤ) : ℚ) * (2/100)))
    let ease'' := if ease' < 13/10 then 13/10 else ease'
    (ease'', interval', reps')

/-- Function `get_learning_steps` from `src/study.py` lines 137-144: its
`try`/`except` falls back to `[10, 1440]` when the stored
`learning_steps` text does not parse as a list of integers (`parsed` is
the result of the `json.loads` + `int` conversion, `none` on any
exception). -/
def get_learning_steps (parsed : Option (List ℤ)) : List ℤ :=
  match parsed with
  | some steps => steps
  | none => [10, 1440]

/-- The branch body of `update_schedule` (`src/study.py` lines
267-289): the learning-phase state machine plus the graduated SM-2
path, computing the updated card fields and the new due time (in
minutes). `none` means a Python `IndexError` on the learning-steps
list. The leech check that follows in the source is applied by
`update_schedule` below. -/
def update_branch (steps : List ℤ) (c : Card) (quality now : ℤ) : Option Card :=
  if c.reps = 0 ∨ c.learning_step_index < (steps.length : ℤ) then
    if 3 ≤ quality then
      if (steps.length : ℤ) ≤ c.learning_step_index + 1 then
        some { c with
          ease := (sm2_update c.ease c.interval c.reps quality).1,
          interval := (sm2_update c.ease c.interval c.reps quality).2.1,
          reps := (sm2_update c.ease c.interval c.reps quality).2.2,
          learning_step_index := (steps.length : ℤ),
          due := now + (sm2_update c.ease c.interval c.reps quality).2.1 * 1440 }
      else
        match pyGet steps (c.learning_step_index + 1 - 1) with
        | none => none
        | some s => some { c with
            learning_step_index := c.learning_step_index + 1,
            due := now + s }
    else
      match pyGet steps 0 with
      | none => none
      | some s => some { c with
          learning_step_index := 0,
          due := now + s,
          lapses := c.lapses + 1 }
  else
    some { c with
      ease := (sm2_update c.ease c.interval c.reps quality).1,
      interval := (sm2_update c.ease c.interval c.reps quality).2.1,
      reps := (sm2_update c.ease c.interval c.reps quality).2.2,
      lapses := if quality < 3 then c.lapses + 1 else c.lapses,
      due := now + (sm2_update c.ease c.interval c.reps quality).2.1 * 1440 }

/-- Function `update_schedule` from `src/study.py` lines 267-299: the branch
above followed by the leech check (lines 290-292), which sets
`suspended` when the new lapse count reaches `leech_threshold` and
otherwise keeps the stored flag. -/
def update_schedule (steps : List ℤ) (leech_threshold : ℤ) (c : Card) (quality now : ℤ) :
    Option Card :=
  match update_branch steps c quality now with
  | none => none
  | some c' => some { c' with
      suspended := if leech_threshold ≤ c'.lapses then true else c'.suspended }

/-- Function `update_schedule` including its config read (`src/study.py` line
270): the function calls `json.loads` on the stored `learning_steps`
text directly — with no `try`/`except` — so a malformed value
(`parsed = none`) raises and the review aborts (`none`). -/
def update_schedule_raw (parsed : Option (List ℤ)) (leech_threshold : ℤ) (c : Card)
    (quality now : ℤ) : Option Card :=
  match parsed with
  | none => none
  | some steps => update_schedule steps leech_threshold c quality now

/-- The `rate` handler of `src/webapp.py` lines 538-570 after the card
lookup: increments `lapses` on a failing grade, runs the nested `sm2`,
writes back ease/interval/reps/lapses/due (the `UPDATE` touches neither
`suspended` nor `learning_step_index`), and appends one row with the raw
grade to the `reviews` ledger. -/
def webRate (c : Card) (reviews : List ℤ) (quality now : ℤ) : Card × List ℤ :=
  let lapses := if quality < 3 then c.lapses + 1 else c.lapses
  let r := webapp_sm2 c.ease c.interval c.reps quality
  ({ c with
      ease := r.1,
      interval := r.2.1,
      reps := r.2.2,
      lapses := lapses,
      due := now + r.2.1 * 1440 }, reviews ++ [quality])

/-- Insertion step of the `ORDER BY DATETIME(c.due) ASC, c.id ASC`
ordering of `fetch_due_cards`. -/
def insertByDue (a : Card) : List Card → List Card
  | [] => [a]
  | b :: rest =>
      if a.due < b.due ∨ (a.due = b.due ∧ a.id ≤ b.id) then a :: b :: rest
      else b :: insertByDue a rest

/-- Sort by `(due, id)`, the deterministic ordering of the SQL query in
`fetch_due_cards`. -/
def sortByDue : List Card → List Card
  | [] => []
  | a :: rest => insertByDue a (sortByDue rest)

/-- The new-card cap walk of `fetch_due_cards` (`src/study.py` lines
232-238): a row counts as new when `reps == 0 and include_new`; such a
row is skipped once the running new-count has reached `new_cap`,
otherwise admitted (counting it); every other row is admitted without
counting. -/
def capWalk (new_cap : ℤ) (include_new : Bool) : List Card → ℤ → List Card
  | [], _ => []
  | r :: rest, new_count =>
      if r.reps = 0 ∧ include_new = true then
        if new_cap ≤ new_count then capWalk new_cap include_new rest new_count
        else r :: capWalk new_cap include_new rest (new_count + 1)
      else r :: capWalk new_cap include_new rest new_count

/-- Function `fetch_due_cards` from `src/study.py` lines 220-252 on the
non-interleave path (`interleave=None`): SQL phase (keep unsuspended
rows due by `now` that match the deck/tag filters `flt`, order by
`(due, id)`, `LIMIT limit`), then the new-card cap walk, then the final
`selected[:limit]` truncation. -/
def fetch_due_cards (table : List Card) (flt : Card → Bool) (now : ℤ) (limit : ℕ)
    (new_cap : ℤ) (include_new : Bool) : List Card :=
  let rows := (sortByDue (table.filter
    (fun c => c.suspended == false && decide (c.due ≤ now) && flt c))).take limit
  let selected := capWalk new_cap include_new rows 0
  selected.take limit

/-- Trivial row predicate: a query with no deck/tag filter. -/
def allCards : Card → Bool := fun _ => true

end Studyflash

namespace Studyflash

/-- Helper: the grade clamp `max(0, min(5, quality))` stays below 3 for
a failing grade. -/
lemma clamp_lt_three {q : ℤ} (hq : q < 3) : max 0 (min 5 q) < 3 := by omega

/-- Helper: the grade clamp is at least 3 for a passing grade. -/
lemma clamp_ge_three {q : ℤ} (hq : 3 ≤ q) : ¬ (max 0 (min 5 q) < 3) := by omega

/-- C2: for every ease ≥ 1.3, interval ≥ 0, reps ≥ 0 and grade < 3,
`sm2_update` returns `reps' = 0`, `interval' = 1` and the ease
unchanged. -/
theorem sm2_update_fail (e : ℚ) (i r q : ℤ) (he : 13/10 ≤ e) (hi : 0 ≤ i)
    (hr : 0 ≤ r) (hq : q < 3) : sm2_update e i r q = (e, 1, 0) := by
  simp only [sm2_update]
  rw [if_pos (clamp_lt_three hq)]

/-- C2 witness: concrete failing review, ease 1.5, grade 2. -/
theorem sm2_update_fail_witness :
    (13/10 ≤ (3/2 : ℚ) ∧ (0 : ℤ) ≤ 0 ∧ (2 : ℤ) < 3) ∧
      sm2_update (3/2) 0 0 2 = ((3/2 : ℚ), 1, 0) :=
  ⟨by norm_num,
   sm2_update_fail (3/2) 0 0 2 (by norm_num) le_rfl le_rfl (by norm_num)⟩

/-- C4: for every input with ease ≥ 1.3, the ease returned by
`sm2_update` is still ≥ 1.3. -/
theorem sm2_update_ease_floor (e : ℚ) (i r q : ℤ) (he : 13/10 ≤ e) :
    13/10 ≤ (sm2_update e i r q).1 := by
  by_cases h : max 0 (min 5 q) < 3
  · simp only [sm2_update, if_pos h]
    exact he
  · simp only [sm2_update, if_neg h]
    split_ifs <;> first | exact le_refl _ | exact le_of_not_lt (by assumption)

/-- C4 witness: concrete hardest case, grade 0 from the floor value. -/
theorem sm2_update_ease_floor_witness :
    (13/10 ≤ (13/10 : ℚ)) ∧ 13/10 ≤ (sm2_update (13/10) 6 2 0).1 :=
  ⟨le_rfl, sm2_update_ease_floor (13/10) 6 2 0 le_rfl⟩

/-- C5 counterexample: at ease 2.5, interval 5, reps 2, grade 3 the
code rounds the tie 12.5 to the even integer 12 (Python `round`), while
the claimed round-half-up rule gives 13. -/
theorem sm2_update_round_tie_cex :
    (sm2_update (5/2) 5 2 3).2.1 = 12 ∧ roundHalfUpSpec ((5 : ℚ) * (5/2)) = 13 ∧
      (sm2_update (5/2) 5 2 3).2.1 ≠ roundHalfUpSpec ((5 : ℚ) * (5/2)) := by
  have h1 : (sm2_update (5/2) 5 2 3).2.1 = 12 := by
    norm_num [sm2_update, roundHalfEven]
  have h2 : roundHalfUpSpec ((5 : ℚ) * (5/2)) = 13 := by
    norm_num [roundHalfUpSpec]
  refine ⟨h1, h2, ?_⟩
  rw [h1, h2]
  decide

/-- C5 amended: for every successful review (grade ≥ 3) with reps ≥ 2,
the new interval is `interval × ease` rounded to whole days with ties
rounded half-to-even (Python `round`). -/
theorem sm2_update_round_growth (e : ℚ) (i r q : ℤ) (hq : 3 ≤ q) (hr : 2 ≤ r) :
    (sm2_update e i r q).2.1 = roundHalfEven ((i : ℚ) * e) := by
  have h2 : ¬ (r = 0) := by omega
  have h3 : ¬ (r = 1) := by omega
  simp only [sm2_update]
  rw [if_neg (clamp_ge_three hq)]
  simp [h2, h3]

/-- C5 amended witness: the spec's own example, ease 2.5, interval 6,
reps 2, grade 3 gives 15. -/
theorem sm2_update_round_growth_witness :
    ((3 : ℤ) ≤ 3 ∧ (2 : ℤ) ≤ 2) ∧
      (sm2_update (5/2) 6 2 3).2.1 = roundHalfEven ((6 : ℚ) * (5/2)) :=
  ⟨⟨le_rfl, le_rfl⟩, sm2_update_round_growth (5/2) 6 2 3 le_rfl le_rfl⟩

/-- C9: the CLI's `sm2_update` and the web layer's nested `sm2` compute
identical results on every input. -/
theorem sm2_copies_agree : ∀ (e : ℚ) (i r q : ℤ),
    sm2_update e i r q = webapp_sm2 e i r q :=
  fun _ _ _ _ => rfl

end Studyflash

namespace Studyflash

/-- Helper: membership through the insertion step of the due-order
sort. -/
lemma mem_insertByDue {x a : Card} : ∀ {l : List Card},
    x ∈ insertByDue a l ↔ x = a ∨ x ∈ l := by
  intro l
  induction l with
  | nil => simp [insertByDue]
  | cons b rest ih =>
    simp only [insertByDue]
    split_ifs with h
    · simp [List.mem_cons]
    · simp only [List.mem_cons, ih]
      tauto

/-- Helper: the due-order sort permutes its input, so membership is
preserved. -/
lemma mem_sortByDue {x : Card} : ∀ {l : List Card}, x ∈ sortByDue l ↔ x ∈ l := by
  intro l
  induction l with
  | nil => simp [sortByDue]
  | cons a rest ih => simp [sortByDue, mem_insertByDue, ih]

/-- Helper: the new-card cap walk only drops rows, it never invents
them. -/
lemma capWalk_subset {cap : ℤ} {inc : Bool} : ∀ {l : List Card} {n : ℤ} {x : Card},
    x ∈ capWalk cap inc l n → x ∈ l := by
  intro l
  induction l with
  | nil => intro n x h; simp [capWalk] at h
  | cons r rest ih =>
    intro n x h
    simp only [capWalk] at h
    split_ifs at h with h1 h2
    · exact List.mem_cons_of_mem _ (ih h)
    · rcases List.mem_cons.mp h with h3 | h3
      · exact h3 ▸ List.mem_cons_self _ _
      · exact List.mem_cons_of_mem _ (ih h3)
    · rcases List.mem_cons.mp h with h3 | h3
      · exact h3 ▸ List.mem_cons_self _ _
      · exact List.mem_cons_of_mem _ (ih h3)

/-- Helper: the scheduling branch never touches the stored suspended
flag, and a failing grade always increments the lapse count by one. -/
lemma update_branch_suspended_lapses (steps : List ℤ) (c : Card) (q now : ℤ) (b : Card)
    (h : update_branch steps c q now = some b) :
    b.suspended = c.suspended ∧ (q < 3 → b.lapses = c.lapses + 1) := by
  unfold update_branch at h
  split_ifs at h with h1 h2 h3 h4
  · injection h with h'
    subst h'
    exact ⟨rfl, fun hq => absurd hq (by omega)⟩
  · cases hg : pyGet steps (c.learning_step_index + 1 - 1) with
    | none => rw [hg] at h; exact absurd h (by simp)
    | some s =>
      rw [hg] at h
      injection h with h'
      subst h'
      exact ⟨rfl, fun hq => absurd hq (by omega)⟩
  · cases hg : pyGet steps 0 with
    | none => rw [hg] at h; exact absurd h (by simp)
    | some s =>
      rw [hg] at h
      injection h with h'
      subst h'
      exact ⟨rfl, fun _ => rfl⟩
  · injection h with h'
    subst h'
    exact ⟨rfl, fun _ => rfl⟩
  · injection h with h'
    subst h'
    exact ⟨rfl, fun hq => absurd hq h4⟩

/-- Helper: with a non-empty learning-step list and a nonnegative
stored step index, every subscript the scheduling branch performs is in
bounds, so the branch never raises. -/
lemma update_branch_isSome (steps : List ℤ) (c : Card) (q now : ℤ)
    (hne : steps ≠ []) (h0 : 0 ≤ c.learning_step_index) :
    (update_branch steps c q now).isSome = true := by
  unfold update_branch
  split_ifs with h1 h2 h3 h4
  · rfl
  · have hidx : ∃ s, pyGet steps (c.learning_step_index + 1 - 1) = some s := by
      have he : c.learning_step_index + 1 - 1 = c.learning_step_index := by ring
      rw [he]
      unfold pyGet
      rw [if_pos h0]
      cases hg : steps.get? c.learning_step_index.toNat with
      | none =>
        have := List.get?_eq_none.mp hg
        push_neg at h3
        exact absurd this (by omega)
      | some s => exact ⟨s, rfl⟩
    obtain ⟨s, hs⟩ := hidx
    rw [hs]
    rfl
  · have hidx : ∃ s, pyGet steps 0 = some s := by
      unfold pyGet
      rw [if_pos le_rfl]
      have hpos : 0 < steps.length := List.length_pos.mpr hne
      cases hg : steps.get? (0 : ℤ).toNat with
      | none =>
        have := List.get?_eq_none.mp hg
        exact absurd this (by omega)
      | some s => exact ⟨s, rfl⟩
    obtain ⟨s, hs⟩ := hidx
    rw [hs]
    rfl
  · rfl
  · rfl

/-- C10: provided the configured learning-step list is non-empty and
the stored step index is nonnegative, `update_schedule` never goes out
of bounds on the step list (it always produces a result); and the
non-emptiness is necessary — with an empty list, a failing grade on a
learning-phase card evaluates `steps[0]` and raises. -/
theorem update_schedule_index_safety :
    (∀ (steps : List ℤ) (thr : ℤ) (c : Card) (q now : ℤ), steps ≠ [] →
        0 ≤ c.learning_step_index →
        (update_schedule steps thr c q now).isSome = true) ∧
    update_schedule [] 8 ⟨1, 5/2, 0, 0, 0, 0, 0, false⟩ 1 0 = none := by
  constructor
  · intro steps thr c q now hne h0
    unfold update_schedule
    cases hb : update_branch steps c q now with
    | none =>
      have := update_branch_isSome steps c q now hne h0
      rw [hb] at this
      exact absurd this (by simp)
    | some b => rfl
  · norm_num [update_schedule, update_branch, pyGet]

/-- C10 witness: a concrete review (fresh card, grade 1, default steps)
succeeds. -/
theorem update_schedule_index_safety_witness :
    (([10, 1440] : List ℤ) ≠ [] ∧ (0 : ℤ) ≤ 0) ∧
      (update_schedule [10, 1440] 8 ⟨1, 5/2, 0, 0, 0, 0, 0, false⟩ 1 0).isSome = true :=
  ⟨⟨by simp, le_rfl⟩,
   update_schedule_index_safety.1 [10, 1440] 8 ⟨1, 5/2, 0, 0, 0, 0, 0, false⟩ 1 0
     (by simp) le_rfl⟩

/-- C7: `update_schedule` reads the learning-steps configuration with a
bare `json.loads`, so a malformed value aborts the review (`none`)
instead of falling back; the fallback to `[10, 1440]` exists only in
the never-called `get_learning_steps`. -/
theorem update_schedule_config_fallback_bug :
    update_schedule_raw none 8 ⟨1, 5/2, 0, 0, 0, 0, 0, false⟩ 3 0 = none ∧
      get_learning_steps none = [10, 1440] :=
  ⟨rfl, rfl⟩

/-- C6: with `include_new = false`, a new card (`reps = 0`) is still
returned by due-set selection — the flag merely exempts new cards from
the cap (here `new_cap = 0`) instead of excluding them. -/
theorem fetch_due_cards_include_new_bug :
    (⟨1, 5/2, 0, 0, 0, 0, 0, false⟩ : Card).reps = 0 ∧
      fetch_due_cards [⟨1, 5/2, 0, 0, 0, 0, 0, false⟩] allCards 0 5 0 false =
        [⟨1, 5/2, 0, 0, 0, 0, 0, false⟩] := by
  constructor
  · rfl
  · norm_num [fetch_due_cards, allCards, sortByDue, insertByDue, capWalk]

end Studyflash

namespace Studyflash

/-- C3 counterexample: a web-layer review of a card with 7 lapses and a
failing grade brings the lapse count to 8 — at the default leech
threshold of 8 — yet the `rate` handler leaves `suspended = false`: the
web layer implements no leech suspension at all. -/
theorem webRate_no_leech_cex :
    webRate ⟨1, 5/2, 3, 4, 7, 2, 0, false⟩ [] 1 0 =
      (⟨1, 5/2, 1, 0, 8, 2, 1440, false⟩, [1]) ∧
    (8 : ℤ) ≤ (⟨1, 5/2, 1, 0, 8, 2, 1440, false⟩ : Card).lapses ∧
    (⟨1, 5/2, 1, 0, 8, 2, 1440, false⟩ : Card).suspended = false :=
  ⟨by norm_num [webRate, webapp_sm2], by norm_num, rfl⟩

/-- C3 amended: leech suspension lives only in the CLI's
`update_schedule` — after it, the card is suspended exactly when the new
lapse count has reached the threshold or the card was already
suspended, and a failing grade always adds one lapse; due-set selection
excludes every suspended card. The web layer's `rate` handler leaves the
suspended flag untouched (see the counterexample). -/
theorem update_schedule_leech_suspends :
    (∀ (steps : List ℤ) (thr : ℤ) (c : Card) (q now : ℤ) (c' : Card),
        update_schedule steps thr c q now = some c' →
        c'.suspended = (decide (thr ≤ c'.lapses) || c.suspended) ∧
        (q < 3 → c'.lapses = c.lapses + 1)) ∧
    (∀ (table : List Card) (flt : Card → Bool) (now : ℤ) (lim : ℕ) (cap : ℤ)
        (inc : Bool) (c : Card), c.suspended = true →
        c ∉ fetch_due_cards table flt now lim cap inc) := by
  constructor
  · intro steps thr c q now c' h
    unfold update_schedule at h
    cases hb : update_branch steps c q now with
    | none => rw [hb] at h; exact absurd h (by simp)
    | some b =>
      rw [hb] at h
      injection h with h'
      subst h'
      obtain ⟨hsusp, hlap⟩ := update_branch_suspended_lapses steps c q now b hb
      constructor
      · show (if thr ≤ b.lapses then true else b.suspended) =
          (decide (thr ≤ b.lapses) || c.suspended)
        rw [hsusp]
        by_cases ht : thr ≤ b.lapses
        · simp [ht]
        · simp [ht]
      · intro hq
        show b.lapses = c.lapses + 1
        exact hlap hq
  · intro table flt now lim cap inc c hs hmem
    simp only [fetch_due_cards] at hmem
    have h1 := List.mem_of_mem_take hmem
    have h2 := capWalk_subset h1
    have h3 := List.mem_of_mem_take h2
    have h4 := mem_sortByDue.mp h3
    have h5 := (List.mem_filter.mp h4).2
    rw [hs] at h5
    simp at h5

/-- C3 witness: one more failing grade at 7 lapses (threshold 8)
suspends the card, and a suspended card is not selected. -/
theorem update_schedule_leech_suspends_witness :
    update_schedule [10, 1440] 8 ⟨1, 5/2, 0, 0, 7, 0, 0, false⟩ 1 0 =
      some ⟨1, 5/2, 0, 0, 8, 0, 10, true⟩ ∧
    (⟨1, 5/2, 0, 0, 8, 0, 10, true⟩ : Card).suspended =
      (decide ((8 : ℤ) ≤ (⟨1, 5/2, 0, 0, 8, 0, 10, true⟩ : Card).lapses) ||
        (⟨1, 5/2, 0, 0, 7, 0, 0, false⟩ : Card).suspended) ∧
    (⟨9, 5/2, 0, 0, 8, 0, 0, true⟩ : Card) ∉
      fetch_due_cards [⟨9, 5/2, 0, 0, 8, 0, 0, true⟩] allCards 0 5 20 true := by
  have hupd : update_schedule [10, 1440] 8 ⟨1, 5/2, 0, 0, 7, 0, 0, false⟩ 1 0 =
      some ⟨1, 5/2, 0, 0, 8, 0, 10, true⟩ := by
    norm_num [update_schedule, update_branch, pyGet]
  exact ⟨hupd, (update_schedule_leech_suspends.1 _ _ _ _ _ _ hupd).1,
    update_schedule_leech_suspends.2 _ allCards 0 5 20 true _ rfl⟩

/-- C8 counterexample: a grading request with grade 9 (outside 0..5) is
not rejected — the web `rate` handler mutates the card and appends a
review event carrying the raw grade. -/
theorem webRate_out_of_range_cex :
    webRate ⟨1, 5/2, 0, 0, 0, 0, 0, false⟩ [] 9 0 =
      (⟨1, 13/5, 1, 1, 0, 0, 1440, false⟩, [9]) ∧
    (⟨1, 13/5, 1, 1, 0, 0, 1440, false⟩ : Card) ≠
      (⟨1, 5/2, 0, 0, 0, 0, 0, false⟩ : Card) ∧
    ([9] : List ℤ) ≠ ([] : List ℤ) := by
  refine ⟨by norm_num [webRate, webapp_sm2], ?_, by simp⟩
  intro hcontra
  have hint := congrArg Card.interval hcontra
  norm_num at hint

/-- C8 amended: an out-of-range grade is not rejected before mutation:
the card state is updated exactly as for the grade clamped into [0, 5],
and a review event with the raw grade is always appended. -/
theorem webRate_clamps_grade (c : Card) (reviews : List ℤ) (q now : ℤ) :
    (webRate c reviews q now).1 = (webRate c reviews (max 0 (min 5 q)) now).1 ∧
    (webRate c reviews q now).2 = reviews ++ [q] := by
  constructor
  · have hs : webapp_sm2 c.ease c.interval c.reps q =
        webapp_sm2 c.ease c.interval c.reps (max 0 (min 5 q)) := by
      simp only [webapp_sm2]
      have hmm : max 0 (min 5 (max 0 (min 5 q))) = max 0 (min 5 q) := by omega
      rw [hmm]
    have hl : (if q < 3 then c.lapses + 1 else c.lapses) =
        (if max 0 (min 5 q) < 3 then c.lapses + 1 else c.lapses) := by
      by_cases h : q < 3
      · rw [if_pos h, if_pos (by omega)]
      · rw [if_neg h, if_neg (by omega)]
    simp only [webRate]
    rw [hs, hl]
  · rfl

/-- Helper: the learning-phase pass transition of the scheduling
branch, fully characterised: the step index becomes
`min(stepIndex + 1, L)`; below `L` the card stays in learning and is due
after the step delay just completed, at or above `L` the card graduates
through `sm2_update`. -/
lemma update_branch_learning_pass (steps : List ℤ) (c : Card) (q now : ℤ)
    (h0 : 0 ≤ c.learning_step_index)
    (hl : c.reps = 0 ∨ c.learning_step_index < (steps.length : ℤ))
    (hq : 3 ≤ q) :
    update_branch steps c q now = some (
      if c.learning_step_index + 1 < (steps.length : ℤ) then
        { c with learning_step_index := c.learning_step_index + 1,
                 due := now + steps.getD c.learning_step_index.toNat 0 }
      else
        { c with ease := (sm2_update c.ease c.interval c.reps q).1,
                 interval := (sm2_update c.ease c.interval c.reps q).2.1,
                 reps := (sm2_update c.ease c.interval c.reps q).2.2,
                 learning_step_index := (steps.length : ℤ),
                 due := now + (sm2_update c.ease c.interval c.reps q).2.1 * 1440 }) := by
  unfold update_branch
  rw [if_pos hl, if_pos hq]
  by_cases hg : (steps.length : ℤ) ≤ c.learning_step_index + 1
  · rw [if_pos hg, if_neg (not_lt.mpr hg)]
  · push_neg at hg
    rw [if_neg (not_le.mpr hg), if_pos hg]
    have he : c.learning_step_index + 1 - 1 = c.learning_step_index := by ring
    rw [he]
    have hlen : c.learning_step_index.toNat < steps.length := by omega
    have hget : pyGet steps c.learning_step_index =
        some (steps.getD c.learning_step_index.toNat 0) := by
      unfold pyGet
      rw [if_pos h0, List.getD_eq_get?]
      cases hgg : steps.get? c.learning_step_index.toNat with
      | none => exact absurd (List.get?_eq_none.mp hgg) (by omega)
      | some s => rfl
    rw [hget]

/-- C1 amended: a learning-phase card (reps = 0 or stepIndex < L)
graded with grade ≥ 3 gets stepIndex := min(stepIndex + 1, L); when
stepIndex + 1 < L it stays in learning with next-due = now +
S[stepIndex] minutes (the delay just completed, indexed by the
incremented stepIndex minus one) and ease/interval/reps unchanged; when
stepIndex + 1 ≥ L it graduates: `sm2_update` is applied to
(ease, interval, reps, grade) and next-due = now + interval' days, with
the step index clamped to L. The leech check then runs on the unchanged
lapse count. -/
theorem update_schedule_learning_pass (steps : List ℤ) (thr : ℤ) (c : Card) (q now : ℤ)
    (h0 : 0 ≤ c.learning_step_index)
    (hl : c.reps = 0 ∨ c.learning_step_index < (steps.length : ℤ))
    (hq : 3 ≤ q) :
    update_schedule steps thr c q now = some (
      if c.learning_step_index + 1 < (steps.length : ℤ) then
        { c with learning_step_index := c.learning_step_index + 1,
                 due := now + steps.getD c.learning_step_index.toNat 0,
                 suspended := if thr ≤ c.lapses then true else c.suspended }
      else
        { c with ease := (sm2_update c.ease c.interval c.reps q).1,
                 interval := (sm2_update c.ease c.interval c.reps q).2.1,
                 reps := (sm2_update c.ease c.interval c.reps q).2.2,
                 learning_step_index := (steps.length : ℤ),
                 due := now + (sm2_update c.ease c.interval c.reps q).2.1 * 1440,
                 suspended := if thr ≤ c.lapses then true else c.suspended }) := by
  unfold update_schedule
  rw [update_branch_learning_pass steps c q now h0 hl hq]
  by_cases hP : c.learning_step_index + 1 < (steps.length : ℤ)
  · rw [if_pos hP, if_pos hP]
  · rw [if_neg hP, if_neg hP]

/-- C1 witness: the spec's scenario — steps [10, 1440], fresh card,
grade 3 — stays in learning with stepIndex 1 and due in 10 minutes. -/
theorem update_schedule_learning_pass_witness :
    ((0 : ℤ) ≤ (⟨1, 5/2, 0, 0, 0, 0, 0, false⟩ : Card).learning_step_index ∧
      ((⟨1, 5/2, 0, 0, 0, 0, 0, false⟩ : Card).reps = 0 ∨
        (⟨1, 5/2, 0, 0, 0, 0, 0, false⟩ : Card).learning_step_index <
          (([10, 1440] : List ℤ).length : ℤ)) ∧
      (3 : ℤ) ≤ 3) ∧
    update_schedule [10, 1440] 8 ⟨1, 5/2, 0, 0, 0, 0, 0, false⟩ 3 0 =
      some ⟨1, 5/2, 0, 0, 0, 1, 10, false⟩ := by
  refine ⟨⟨le_rfl, Or.inl rfl, le_rfl⟩, ?_⟩
  have h := update_schedule_learning_pass [10, 1440] 8 ⟨1, 5/2, 0, 0, 0, 0, 0, false⟩ 3 0
    le_rfl (Or.inl rfl) le_rfl
  rw [h]
  norm_num [List.getD]

/-- C1 counterexample: the card (reps 0, stepIndex 2) is in the
learning phase by the claim's own definition (reps = 0), yet a passing
grade leaves stepIndex at 2 = L (the code clamps), not stepIndex + 1 =
3 as the claim states. -/
theorem update_schedule_learning_pass_cex :
    ((⟨1, 5/2, 1, 0, 0, 2, 0, false⟩ : Card).reps = 0 ∨
      (⟨1, 5/2, 1, 0, 0, 2, 0, false⟩ : Card).learning_step_index <
        (([10, 1440] : List ℤ).length : ℤ)) ∧
    update_schedule [10, 1440] 8 ⟨1, 5/2, 1, 0, 0, 2, 0, false⟩ 3 0 =
      some ⟨1, 59/25, 1, 1, 0, 2, 1440, false⟩ ∧
    (⟨1, 59/25, 1, 1, 0, 2, 1440, false⟩ : Card).learning_step_index ≠
      (⟨1, 5/2, 1, 0, 0, 2, 0, false⟩ : Card).learning_step_index + 1 :=
  ⟨Or.inl rfl,
   by norm_num [update_schedule, update_branch, sm2_update, pyGet],
   by norm_num⟩

end Studyflash
